import Mathlib

/-!
Verification of the avicore media CLI (src/app.py).

The development shallowly embeds the orchestration logic of the tool:
path naming (suggest_path, backup_original), input expansion
(expand_inputs), the subprocess wrapper (run_ffmpeg), the per-file
processing steps of the six commands, and the batch drivers.  The
external binary and the filesystem are modelled by oracles carried in an
environment record; the set of existing files is a finite set of paths
threaded through every step.
-/

namespace Avicore

/-- Decimal digit character, models Python formatting of a digit. -/
def digitChar (d : Nat) : Char := Char.ofNat (48 + d)

/-- Little-endian decimal digits of n, fuel-driven so that it is
structurally recursive and kernel-reducible. -/
def natDigitsRev (fuel n : Nat) : List Nat :=
  match fuel with
  | 0 => []
  | f + 1 => if n = 0 then [] else n % 10 :: natDigitsRev f (n / 10)

/-- Decimal rendering of a natural number, models the f-string
interpolation of an int in Python. -/
def natStr (n : Nat) : String :=
  if n = 0 then "0" else String.mk (((natDigitsRev n n).map digitChar).reverse)

/-- A filesystem path as pathlib exposes it: parent directory, stem and
suffix (the suffix carries its leading dot). -/
structure FsPath where
  dir : String
  stem : String
  ext : String
deriving DecidableEq, Repr

/-- str(path): parent, separator, name. -/
def pathStr (p : FsPath) : String := p.dir ++ "/" ++ p.stem ++ p.ext

/-- src.with_name(src.stem + "." + fmt) (also src.with_suffix(".mp3")):
same directory and stem, new suffix. -/
def withExt (p : FsPath) (fmt : String) : FsPath := ⟨p.dir, p.stem, "." ++ fmt⟩

/-- The idx-th collision-avoidance candidate built in suggest_path and
backup_original: parent / (stem_idx ++ suffix). -/
def candidate (p : FsPath) (i : Nat) : FsPath :=
  ⟨p.dir, p.stem ++ "_" ++ natStr i, p.ext⟩

/-- The scan loop of suggest_path (app.py lines 112-117): starting at
index i, return the first candidate that does not exist.  The fuel is an
upper bound on the number of probes; suggest_path passes enough fuel for
the scan to always find a free candidate (proved below). -/
def suggestAux (fs : Finset FsPath) (p : FsPath) : Nat → Nat → FsPath
  | 0, i => candidate p i
  | f + 1, i => if candidate p i ∈ fs then suggestAux fs p f (i + 1) else candidate p i

/-- suggest_path (app.py lines 108-117): first candidate stem_1, stem_2,
… that does not exist.  Note the source never returns the input path
itself, it starts probing at index 1 unconditionally. -/
def suggest_path (fs : Finset FsPath) (p : FsPath) : FsPath :=
  suggestAux fs p (fs.card + 1) 1

/-- ASCII lower-casing of one character, models str.lower. -/
def lowerChar (c : Char) : Char :=
  if 'A' ≤ c ∧ c ≤ 'Z' then Char.ofNat (c.toNat + 32) else c

/-- str.lower for the ASCII strings handled by the tool. -/
def strLower (s : String) : String := String.mk (s.data.map lowerChar)

/-- Outcome of subprocess.run: either the process completed with a
return code and captured stderr, or the call raised. -/
inductive RunRes where
  | completed (rc : Int) (stderr : String)
  | raised (msg : String)

/-- Ambient run configuration: the resolved ffmpeg path, the dry-run
flag, the behaviour of the external binary on a given argv, and whether
backup relocation (mkdir + rename) succeeds for a given source. -/
structure Env where
  ffmpeg : String
  dryRun : Bool
  run : List String → RunRes
  backupOk : FsPath → Bool

/-- run_ffmpeg (app.py lines 139-164): in dry-run mode print the command
and return True without executing; otherwise run the process, returning
False on a non-zero exit or on any exception, True otherwise. -/
def run_ffmpeg (env : Env) (cmd : List String) : Bool :=
  if env.dryRun then true
  else
    match env.run cmd with
    | RunRes.completed rc _ => if rc ≠ 0 then false else true
    | RunRes.raised _ => false

/-- backup_original (app.py lines 119-131): the target inside the backup
directory, under the original name or, when occupied, under the first
counter-suffixed free name. -/
def backupTarget (fs : Finset FsPath) (src : FsPath) : FsPath :=
  let t0 : FsPath := ⟨src.dir ++ "/backup", src.stem, src.ext⟩
  if t0 ∈ fs then suggest_path fs t0 else t0

/-- backup_original: move src into the sibling backup directory.  A
failing mkdir or rename raises, modelled by the error branch governed by
the backupOk oracle. -/
def backup_original (env : Env) (fs : Finset FsPath) (src : FsPath) :
    Except Unit (FsPath × Finset FsPath) :=
  if env.backupOk src then
    let t := backupTarget fs src
    Except.ok (t, insert t (fs.erase src))
  else Except.error ()

/-- One iteration of the loop in expand_inputs (app.py lines 173-180):
the wildcard matches when any exist, else the literal path when it
exists, else nothing.  g is the glob oracle, ex the existence oracle. -/
def expandOne (g : String → List String) (ex : String → Bool) (item : String) :
    List String :=
  let ms := g item
  if ms ≠ [] then ms
  else if ex item then [item] else []

/-- The accumulation loop of expand_inputs: per-item results appended in
order. -/
def expandRaw (g : String → List String) (ex : String → Bool) :
    List String → List String
  | [] => []
  | item :: rest => expandOne g ex item ++ expandRaw g ex rest

/-- dict.fromkeys de-duplication: keep the first occurrence of each
element, in first-occurrence order. -/
def firstDedup : List String → List String
  | [] => []
  | x :: xs => x :: firstDedup (xs.filter (fun y => y ≠ x))
termination_by l => l.length
decreasing_by
  simp only [List.length_cons]
  exact Nat.lt_succ_of_le (List.length_filter_le _ _)

/-- expand_inputs (app.py lines 170-182). -/
def expand_inputs (g : String → List String) (ex : String → Bool)
    (inputs : List String) : List String :=
  firstDedup (expandRaw g ex inputs)

/-- Index of the first occurrence of x, 0-based; length when absent. -/
def firstIdx (x : String) : List String → Nat
  | [] => 0
  | y :: ys => if y = x then 0 else firstIdx x ys + 1

/-- The supported format sets (app.py lines 19-21). -/
def VIDEO_FORMATS : List String := ["mp4", "mkv", "mov", "avi", "webm"]

def IMAGE_FORMATS : List String := ["jpg", "jpeg", "png", "webp", "bmp"]

def AUDIO_FORMATS : List String := ["mp3", "wav", "aac", "flac", "ogg"]

/-- The argv built for video convert (app.py lines 298-308). -/
def videoConvertCmd (ffmpeg : String) (fast : Bool) (src dst : FsPath) :
    List String :=
  if fast then
    [ffmpeg, "-i", pathStr src, "-map", "0", "-c", "copy", pathStr dst]
  else
    [ffmpeg, "-i", pathStr src, "-map", "0", "-c:v", "libx264", "-c:a", "aac",
      "-movflags", "+faststart", pathStr dst]

/-- The argv built for video mute (app.py lines 345-352). -/
def muteCmd (ffmpeg : String) (src dst : FsPath) : List String :=
  [ffmpeg, "-i", pathStr src, "-map", "0", "-an", "-c:v", "copy", "-c:s",
    "copy", pathStr dst]

/-- The argv built for image convert (app.py line 398). -/
def imageConvertCmd (ffmpeg : String) (src dst : FsPath) : List String :=
  [ffmpeg, "-i", pathStr src, pathStr dst]

/-- The encoder quality derived from the user quality for non-PNG image
compress (app.py line 439): max(2, min(31, int((100 - quality) / 3))).
Python int() truncates; for quality ≤ 100 the operand is non-negative so
truncation is floor division. -/
def qValue (quality : Nat) : Nat := max 2 (min 31 ((100 - quality) / 3))

/-- The argv built for image compress (app.py lines 432-444). -/
def compressCmd (ffmpeg : String) (src dst : FsPath) (quality : Nat) :
    List String :=
  if strLower src.ext = ".png" then
    [ffmpeg, "-i", pathStr src, "-compression_level", "9", pathStr dst]
  else
    [ffmpeg, "-i", pathStr src, "-q:v", natStr (qValue quality), pathStr dst]

/-- The argv built for audio extract (app.py lines 482-486). -/
def audioExtractCmd (ffmpeg : String) (src dst : FsPath) : List String :=
  [ffmpeg, "-i", pathStr src, "-vn", "-ab", "192k", "-map", "a", pathStr dst]

/-- The argv built for audio convert (app.py line 511). -/
def audioConvertCmd (ffmpeg : String) (src dst : FsPath) : List String :=
  [ffmpeg, "-i", pathStr src, pathStr dst]

/-- Effect of processing a single file inside a batch loop: resulting
filesystem, paths appended to CREATED_FILES, contributions to the ok and
fail tallies, and the argv passed to run_ffmpeg when it was called. -/
structure StepOut where
  fs : Finset FsPath
  created : List FsPath
  okInc : Nat
  failInc : Nat
  ran : Option (List String)
deriving DecidableEq

/-- Filesystem after a successful run_ffmpeg call: in dry-run nothing was
executed so nothing was created; otherwise the external binary wrote the
destination file. -/
def fsAfterRun (env : Env) (fs : Finset FsPath) (dst : FsPath) : Finset FsPath :=
  if env.dryRun then fs else insert dst fs

/-- One file of video convert (app.py lines 289-315).  A backup failure
is not caught here: it propagates as an exception. -/
def videoConvertStep (env : Env) (format : String) (fast force : Bool)
    (fs : Finset FsPath) (src : FsPath) : Except Unit StepOut :=
  let dst := withExt src format
  if dst ∈ fs ∧ force = false then Except.ok ⟨fs, [], 0, 1, none⟩
  else
    let cmd := videoConvertCmd env.ffmpeg fast src dst
    if run_ffmpeg env cmd then
      match backup_original env (fsAfterRun env fs dst) src with
      | Except.ok (_, fs2) => Except.ok ⟨fs2, [dst], 1, 0, some cmd⟩
      | Except.error e => Except.error e
    else Except.ok ⟨fs, [], 0, 1, some cmd⟩

/-- One file of video mute (app.py lines 335-359): the destination is the
source path itself. -/
def muteStep (env : Env) (force : Bool) (fs : Finset FsPath) (src : FsPath) :
    Except Unit StepOut :=
  let dst := src
  if dst ∈ fs ∧ force = false then Except.ok ⟨fs, [], 0, 1, none⟩
  else
    let cmd := muteCmd env.ffmpeg src dst
    if run_ffmpeg env cmd then
      match backup_original env (fsAfterRun env fs dst) src with
      | Except.ok (_, fs2) => Except.ok ⟨fs2, [dst], 1, 0, some cmd⟩
      | Except.error e => Except.error e
    else Except.ok ⟨fs, [], 0, 1, some cmd⟩

/-- One file of image convert (app.py lines 391-405): an existing
destination without force is auto-suffixed via suggest_path. -/
def imageConvertStep (env : Env) (format : String) (force : Bool)
    (fs : Finset FsPath) (src : FsPath) : Except Unit StepOut :=
  let dst0 := withExt src format
  let dst := if dst0 ∈ fs ∧ force = false then suggest_path fs dst0 else dst0
  let cmd := imageConvertCmd env.ffmpeg src dst
  if run_ffmpeg env cmd then
    match backup_original env (fsAfterRun env fs dst) src with
    | Except.ok (_, fs2) => Except.ok ⟨fs2, [dst], 1, 0, some cmd⟩
    | Except.error e => Except.error e
  else Except.ok ⟨fs, [], 0, 1, some cmd⟩

/-- One file of image compress (app.py lines 425-454).  The whole body
runs inside try/except, so every exception — including a backup failure —
is converted into a per-file failure and the loop continues. -/
def compressStep (env : Env) (quality : Nat) (force : Bool)
    (fs : Finset FsPath) (src : FsPath) : StepOut :=
  let dst0 := src
  let dst := if dst0 ∈ fs ∧ force = false then suggest_path fs dst0 else dst0
  let cmd := compressCmd env.ffmpeg src dst quality
  if run_ffmpeg env cmd then
    match backup_original env (fsAfterRun env fs dst) src with
    | Except.ok (_, fs2) => ⟨fs2, [dst], 1, 0, some cmd⟩
    | Except.error _ => ⟨fsAfterRun env fs dst, [], 0, 1, some cmd⟩
  else ⟨fs, [], 0, 1, some cmd⟩

/-- Accumulated state of a batch loop: filesystem, CREATED_FILES entries,
and the ok / fail tallies. -/
structure BatchAcc where
  fs : Finset FsPath
  created : List FsPath
  ok : Nat
  fail : Nat
deriving DecidableEq

/-- The batch loop of the commands whose bodies are not wrapped in
try/except: the first uncaught exception aborts the whole loop. -/
def runBatch (step : Finset FsPath → FsPath → Except Unit StepOut) :
    Finset FsPath → List FsPath → Except Unit BatchAcc
  | fs, [] => Except.ok ⟨fs, [], 0, 0⟩
  | fs, src :: rest =>
    match step fs src with
    | Except.error e => Except.error e
    | Except.ok o =>
      match runBatch step o.fs rest with
      | Except.error e => Except.error e
      | Except.ok acc =>
        Except.ok ⟨acc.fs, o.created ++ acc.created, o.okInc + acc.ok,
          o.failInc + acc.fail⟩

/-- The batch loop of image compress, whose per-file body catches every
exception: the loop itself never fails. -/
def runBatchT (step : Finset FsPath → FsPath → StepOut) :
    Finset FsPath → List FsPath → BatchAcc
  | fs, [] => ⟨fs, [], 0, 0⟩
  | fs, src :: rest =>
    let o := step fs src
    let acc := runBatchT step o.fs rest
    ⟨acc.fs, o.created ++ acc.created, o.okInc + acc.ok, o.failInc + acc.fail⟩

/-- How a command invocation ends: a click.ClickException with its
message, or an exception that nothing catches (a crash). -/
inductive CmdErr where
  | clickError (msg : String)
  | uncaught
deriving DecidableEq

/-- Result of a completed batch command: final filesystem, CREATED_FILES,
the two tallies, and the success/failure counts printed by the final
summary line. -/
structure CmdOut where
  fs : Finset FsPath
  created : List FsPath
  ok : Nat
  fail : Nat
  summary : Option (Nat × Nat)
deriving DecidableEq

/-- video convert (app.py lines 268-317).  files is the resolved input
list produced by expand_inputs. -/
def videoConvert (env : Env) (fs : Finset FsPath) (files : List FsPath)
    (format : String) (fast force : Bool) : Except CmdErr CmdOut :=
  if strLower format ∉ VIDEO_FORMATS then
    Except.error (CmdErr.clickError "Unsupported video format")
  else if files = [] then
    Except.error (CmdErr.clickError "No input files resolved")
  else
    match runBatch (videoConvertStep env format fast force) fs files with
    | Except.error _ => Except.error CmdErr.uncaught
    | Except.ok acc =>
      Except.ok ⟨acc.fs, acc.created, acc.ok, acc.fail, some (acc.ok, acc.fail)⟩

/-- video mute (app.py lines 320-361). -/
def mute (env : Env) (fs : Finset FsPath) (files : List FsPath)
    (force : Bool) : Except CmdErr CmdOut :=
  if files = [] then
    Except.error (CmdErr.clickError "No input files resolved")
  else
    match runBatch (muteStep env force) fs files with
    | Except.error _ => Except.error CmdErr.uncaught
    | Except.ok acc =>
      Except.ok ⟨acc.fs, acc.created, acc.ok, acc.fail, some (acc.ok, acc.fail)⟩

/-- image convert (app.py lines 372-407). -/
def imageConvert (env : Env) (fs : Finset FsPath) (files : List FsPath)
    (format : String) (force : Bool) : Except CmdErr CmdOut :=
  if strLower format ∉ IMAGE_FORMATS then
    Except.error (CmdErr.clickError "Unsupported image format")
  else if files = [] then
    Except.error (CmdErr.clickError "No input files resolved")
  else
    match runBatch (imageConvertStep env format force) fs files with
    | Except.error _ => Except.error CmdErr.uncaught
    | Except.ok acc =>
      Except.ok ⟨acc.fs, acc.created, acc.ok, acc.fail, some (acc.ok, acc.fail)⟩

/-- image compress (app.py lines 410-456). -/
def imageCompress (env : Env) (fs : Finset FsPath) (files : List FsPath)
    (quality : Nat) (force : Bool) : Except CmdErr CmdOut :=
  if files = [] then
    Except.error (CmdErr.clickError "No input files resolved.")
  else
    let acc := runBatchT (compressStep env quality force) fs files
    Except.ok ⟨acc.fs, acc.created, acc.ok, acc.fail, some (acc.ok, acc.fail)⟩

/-- Result of the single-file audio commands: final filesystem,
CREATED_FILES, the argv that was run, and the success message, when one
was printed.  The source has no failure tally and no summary line in
these commands. -/
structure AudioOut where
  fs : Finset FsPath
  created : List FsPath
  ran : List String
  msg : Option String
deriving DecidableEq

/-- audio extract (app.py lines 466-491). -/
def audioExtract (env : Env) (fs : Finset FsPath) (input : FsPath)
    (force : Bool) : Except CmdErr AudioOut :=
  if input ∉ fs then
    Except.error (CmdErr.clickError ("Input not found: " ++ pathStr input))
  else
    let dst0 := withExt input "mp3"
    let dst := if dst0 ∈ fs ∧ force = false then suggest_path fs dst0 else dst0
    let cmd := audioExtractCmd env.ffmpeg input dst
    if run_ffmpeg env cmd then
      match backup_original env (fsAfterRun env fs dst) input with
      | Except.ok (_, fs2) =>
        Except.ok ⟨fs2, [dst], cmd, some ("Extracted → " ++ pathStr dst)⟩
      | Except.error _ => Except.error CmdErr.uncaught
    else Except.ok ⟨fs, [], cmd, none⟩

/-- audio convert (app.py lines 493-516). -/
def audioConvert (env : Env) (fs : Finset FsPath) (input : FsPath)
    (format : String) (force : Bool) : Except CmdErr AudioOut :=
  if strLower format ∉ AUDIO_FORMATS then
    Except.error (CmdErr.clickError "Unsupported audio format")
  else if input ∉ fs then
    Except.error (CmdErr.clickError ("Input not found: " ++ pathStr input))
  else
    let dst0 := withExt input format
    let dst := if dst0 ∈ fs ∧ force = false then suggest_path fs dst0 else dst0
    let cmd := audioConvertCmd env.ffmpeg input dst
    if run_ffmpeg env cmd then
      match backup_original env (fsAfterRun env fs dst) input with
      | Except.ok (_, fs2) =>
        Except.ok ⟨fs2, [dst], cmd, some ("Converted → " ++ pathStr dst)⟩
      | Except.error _ => Except.error CmdErr.uncaught
    else Except.ok ⟨fs, [], cmd, none⟩

/-- clamp(2, 31, round((100 - quality) / 3)) with true rounding, the
formula as the specification words it.  Used to compare the source
quality mapping against the spec sentence. -/
def specRoundQ (quality : Nat) : Int :=
  max 2 (min 31 (round ((100 - (quality : ℚ)) / 3)))

/-- clamp(2, 31, floor((100 - quality) / 3)): the truncating formula that
the source actually computes for quality in [0, 100]. -/
def specFloorQ (quality : Nat) : Int :=
  max 2 (min 31 ((100 - (quality : Int)) / 3))

/-- Value of a little-endian digit list; inverse of natDigitsRev, used to
prove that decimal rendering is injective. -/
def valRev : List Nat → Nat
  | [] => 0
  | d :: ds => d + 10 * valRev ds

/-- Fixture: a dry-run environment (used for the dry-run backup claim). -/
def envDryRun : Env := ⟨"ffmpeg", true, fun _ => RunRes.completed 0 "", fun _ => true⟩

/-- Fixture: a real-mode environment whose external binary always
succeeds and whose backup relocation fails exactly for sources with stem
a (used for the per-file exception claim). -/
def envBackupFail : Env :=
  ⟨"ffmpeg", false, fun _ => RunRes.completed 0 "", fun p => decide (p.stem ≠ "a")⟩

/-- Fixture: a fully succeeding real-mode environment. -/
def envAllOk : Env := ⟨"ffmpeg", false, fun _ => RunRes.completed 0 "", fun _ => true⟩

/-- Fixture: a real-mode environment whose external binary always exits
with code 1 (used for the failure-tally claim). -/
def envRunFails : Env :=
  ⟨"ffmpeg", false, fun _ => RunRes.completed 1 "boom", fun _ => true⟩

/-- Fixture: a dry-run environment whose subprocess oracle raises; used
to witness that dry-run never consults the oracle. -/
def envDryRaise : Env := ⟨"ffmpeg", true, fun _ => RunRes.raised "nope", fun _ => true⟩

/-- Fixture: a fully succeeding real-mode environment for the mute
claim. -/
def envMuteOk : Env := ⟨"ffmpeg", false, fun _ => RunRes.completed 0 "", fun _ => true⟩

/-- Fixture: a glob oracle under which every pattern matches one file. -/
def globConst : String → List String := fun _ => ["a.png"]

/-- Fixture: an existence oracle under which every path exists. -/
def existsAll : String → Bool := fun _ => true

theorem valRev_natDigitsRev : ∀ fuel n, n ≤ fuel → valRev (natDigitsRev fuel n) = n := by
  intro fuel
  induction fuel with
  | zero =>
    intro n hn
    have : n = 0 := Nat.le_zero.mp hn
    subst this
    rfl
  | succ f ih =>
    intro n hn
    by_cases h : n = 0
    · subst h; simp [natDigitsRev, valRev]
    · have hdiv : n / 10 ≤ f := by
        have : n / 10 < n := Nat.div_lt_self (Nat.pos_of_ne_zero h) (by norm_num)
        omega
      simp only [natDigitsRev, h, if_false, valRev]
      rw [ih _ hdiv]
      exact Nat.mod_add_div n 10

theorem natDigitsRev_lt10 : ∀ fuel n d, d ∈ natDigitsRev fuel n → d < 10 := by
  intro fuel
  induction fuel with
  | zero => intro n d hd; simp [natDigitsRev] at hd
  | succ f ih =>
    intro n d hd
    by_cases h : n = 0
    · simp [natDigitsRev, h] at hd
    · simp only [natDigitsRev, h, if_false, List.mem_cons] at hd
      rcases hd with hd | hd
      · subst hd; exact Nat.mod_lt _ (by norm_num)
      · exact ih _ _ hd

theorem digitChar_inj : ∀ d, d < 10 → ∀ e, e < 10 → digitChar d = digitChar e → d = e := by
  decide

theorem map_digitChar_inj : ∀ l1 l2 : List Nat, (∀ d ∈ l1, d < 10) → (∀ d ∈ l2, d < 10) →
    l1.map digitChar = l2.map digitChar → l1 = l2 := by
  intro l1
  induction l1 with
  | nil => intro l2 _ _ h; cases l2 <;> simp_all
  | cons a t ih =>
    intro l2 h1 h2 h
    cases l2 with
    | nil => simp at h
    | cons b t2 =>
      simp only [List.map_cons, List.cons.injEq] at h
      have ha : a = b :=
        digitChar_inj a (h1 a (by simp)) b (h2 b (by simp)) h.1
      have ht : t = t2 :=
        ih t2 (fun d hd => h1 d (by simp [hd])) (fun d hd => h2 d (by simp [hd])) h.2
      rw [ha, ht]

theorem natStr_inj : ∀ m n, natStr m = natStr n → m = n := by
  intro m n h
  unfold natStr at h
  by_cases hm : m = 0 <;> by_cases hn : n = 0
  · omega
  · exfalso
    simp only [hm, if_true, hn, if_false] at h
    have hd : (['0'] : List Char) = ((natDigitsRev n n).map digitChar).reverse :=
      congrArg String.data h
    have hmap : (natDigitsRev n n).map digitChar = ['0'] := by
      have := congrArg List.reverse hd
      simpa using this.symm
    have h0 : digitChar 0 = '0' := rfl
    have hzero : natDigitsRev n n = [0] := by
      apply map_digitChar_inj _ _ (fun d hd => natDigitsRev_lt10 _ _ _ hd)
        (by intro d hd; simp at hd; omega)
      simpa [h0] using hmap
    have hval := valRev_natDigitsRev n n (le_refl n)
    rw [hzero] at hval
    simp [valRev] at hval
    omega
  · exfalso
    simp only [hm, if_false, hn, if_true] at h
    have hd : ((natDigitsRev m m).map digitChar).reverse = (['0'] : List Char) :=
      congrArg String.data h
    have hmap : (natDigitsRev m m).map digitChar = ['0'] := by
      have := congrArg List.reverse hd
      simpa using this
    have h0 : digitChar 0 = '0' := rfl
    have hzero : natDigitsRev m m = [0] := by
      apply map_digitChar_inj _ _ (fun d hd => natDigitsRev_lt10 _ _ _ hd)
        (by intro d hd; simp at hd; omega)
      simpa [h0] using hmap
    have hval := valRev_natDigitsRev m m (le_refl m)
    rw [hzero] at hval
    simp [valRev] at hval
    omega
  · simp only [hm, if_false, hn, if_false] at h
    have hd : ((natDigitsRev m m).map digitChar).reverse =
        ((natDigitsRev n n).map digitChar).reverse := congrArg String.data h
    have hrev : (natDigitsRev m m).map digitChar = (natDigitsRev n n).map digitChar :=
      List.reverse_inj.mp hd
    have hdig : natDigitsRev m m = natDigitsRev n n :=
      map_digitChar_inj _ _ (fun d hd => natDigitsRev_lt10 _ _ _ hd)
        (fun d hd => natDigitsRev_lt10 _ _ _ hd) hrev
    have h1 := valRev_natDigitsRev m m (le_refl m)
    have h2 := valRev_natDigitsRev n n (le_refl n)
    rw [hdig] at h1
    omega

theorem string_append_data (a b : String) : (a ++ b).data = a.data ++ b.data := rfl

theorem candidate_inj (p : FsPath) {i j : Nat} (h : candidate p i = candidate p j) :
    i = j := by
  have hstem : p.stem ++ "_" ++ natStr i = p.stem ++ "_" ++ natStr j := by
    have := congrArg FsPath.stem h
    simpa [candidate] using this
  have hd : (p.stem ++ "_").data ++ (natStr i).data =
      (p.stem ++ "_").data ++ (natStr j).data := by
    have := congrArg String.data hstem
    simpa [string_append_data] using this
  have : (natStr i).data = (natStr j).data := List.append_cancel_left hd
  exact natStr_inj i j (String.ext this)

theorem natStr_length_pos (n : Nat) : 0 < (natStr n).length := by
  unfold natStr
  by_cases h : n = 0
  · rw [h]; decide
  · simp only [h, if_false]
    show 0 < ((natDigitsRev n n).map digitChar).reverse.length
    have : natDigitsRev n n ≠ [] := by
      cases n with
      | zero => omega
      | succ k => simp [natDigitsRev]
    simpa [List.length_reverse] using List.length_pos.mpr this

theorem candidate_ne_self (p : FsPath) (i : Nat) : candidate p i ≠ p := by
  intro h
  have hstem : p.stem ++ "_" ++ natStr i = p.stem := by
    have := congrArg FsPath.stem h
    simpa [candidate] using this
  have hlen := congrArg String.length hstem
  rw [String.length_append, String.length_append] at hlen
  have h1 : ("_" : String).length = 1 := rfl
  have := natStr_length_pos i
  omega

theorem suggestAux_spec (fs : Finset FsPath) (p : FsPath) :
    ∀ f i, (∃ j, j < f ∧ candidate p (i + j) ∉ fs) →
      ∃ k, suggestAux fs p f i = candidate p (i + k) ∧ candidate p (i + k) ∉ fs ∧
        ∀ j, j < k → candidate p (i + j) ∈ fs := by
  intro f
  induction f with
  | zero =>
    intro i h
    exact absurd h (by simp)
  | succ f ih =>
    intro i h
    by_cases hc : candidate p i ∈ fs
    · obtain ⟨j, hj, hfree⟩ := h
      cases j with
      | zero => exact absurd hfree (by simpa using hc)
      | succ j0 =>
        have hrw : i + (j0 + 1) = (i + 1) + j0 := by omega
        obtain ⟨k, heq, hfree2, hmin⟩ := ih (i + 1) ⟨j0, by omega, by rw [← hrw]; exact hfree⟩
        refine ⟨k + 1, ?_, ?_, ?_⟩
        · simp only [suggestAux, hc, if_true]
          rw [heq]
          congr 1
          omega
        · have : i + (k + 1) = (i + 1) + k := by omega
          rw [this]
          exact hfree2
        · intro j hjk
          cases j with
          | zero => simpa using hc
          | succ j1 =>
            have : i + (j1 + 1) = (i + 1) + j1 := by omega
            rw [this]
            exact hmin j1 (by omega)
    · exact ⟨0, by simp [suggestAux, hc], by simpa using hc, by omega⟩

theorem exists_free_candidate (fs : Finset FsPath) (p : FsPath) :
    ∃ j, j < fs.card + 1 ∧ candidate p (1 + j) ∉ fs := by
  by_contra hcon
  push_neg at hcon
  have hmaps : ∀ a ∈ Finset.range (fs.card + 1), candidate p (1 + a) ∈ fs := by
    intro a ha
    exact hcon a (Finset.mem_range.mp ha)
  have hinj : Set.InjOn (fun a => candidate p (1 + a)) ↑(Finset.range (fs.card + 1)) := by
    intro a _ b _ hab
    have := candidate_inj p hab
    omega
  have := Finset.card_le_card_of_injOn _ hmaps hinj
  rw [Finset.card_range] at this
  omega

theorem mem_firstDedup (x : String) : ∀ l : List String, x ∈ firstDedup l ↔ x ∈ l := by
  intro l
  induction l using firstDedup.induct with
  | case1 => simp [firstDedup]
  | case2 y ys ih =>
    rw [firstDedup]
    simp only [List.mem_cons, ih, List.mem_filter]
    by_cases h : x = y
    · simp [h]
    · simp [h]

theorem nodup_firstDedup : ∀ l : List String, (firstDedup l).Nodup := by
  intro l
  induction l using firstDedup.induct with
  | case1 => simp [firstDedup]
  | case2 y ys ih =>
    rw [firstDedup]
    refine List.Nodup.cons ?_ ih
    intro hmem
    have := (mem_firstDedup y _).mp hmem
    simp [List.mem_filter] at this

theorem firstIdx_cons_self (x : String) (ys : List String) :
    firstIdx x (x :: ys) = 0 := by simp [firstIdx]

theorem firstIdx_cons_ne (x y : String) (ys : List String) (h : y ≠ x) :
    firstIdx x (y :: ys) = firstIdx x ys + 1 := by simp [firstIdx, h]

theorem firstIdx_filter_lt (p : String → Bool) :
    ∀ (l : List String) (a b : String), a ∈ l.filter p → b ∈ l.filter p →
      firstIdx a (l.filter p) < firstIdx b (l.filter p) → firstIdx a l < firstIdx b l := by
  intro l
  induction l with
  | nil => simp
  | cons c t ih =>
    intro a b ha hb hlt
    by_cases hpc : p c = true
    · rw [List.filter_cons_of_pos hpc] at ha hb hlt
      by_cases hca : c = a
      · have e1 : firstIdx a (c :: t.filter p) = 0 := by rw [hca]; exact firstIdx_cons_self a _
        have e2 : firstIdx a (c :: t) = 0 := by rw [hca]; exact firstIdx_cons_self a t
        by_cases hcb : c = b
        · have e3 : firstIdx b (c :: t.filter p) = 0 := by rw [hcb]; exact firstIdx_cons_self b _
          omega
        · have e4 : firstIdx b (c :: t) = firstIdx b t + 1 := firstIdx_cons_ne b c t hcb
          omega
      · have e1 : firstIdx a (c :: t.filter p) = firstIdx a (t.filter p) + 1 :=
          firstIdx_cons_ne a c _ hca
        have e2 : firstIdx a (c :: t) = firstIdx a t + 1 := firstIdx_cons_ne a c t hca
        by_cases hcb : c = b
        · have e3 : firstIdx b (c :: t.filter p) = 0 := by rw [hcb]; exact firstIdx_cons_self b _
          omega
        · have e3 : firstIdx b (c :: t.filter p) = firstIdx b (t.filter p) + 1 :=
            firstIdx_cons_ne b c _ hcb
          have e4 : firstIdx b (c :: t) = firstIdx b t + 1 := firstIdx_cons_ne b c t hcb
          have ha2 : a ∈ t.filter p := by
            rcases List.mem_cons.mp ha with h1 | h1
            · exact absurd h1.symm hca
            · exact h1
          have hb2 : b ∈ t.filter p := by
            rcases List.mem_cons.mp hb with h1 | h1
            · exact absurd h1.symm hcb
            · exact h1
          have := ih a b ha2 hb2 (by omega)
          omega
    · rw [List.filter_cons_of_neg hpc] at ha hb hlt
      have hpa : p a = true := (List.mem_filter.mp ha).2
      have hpb : p b = true := (List.mem_filter.mp hb).2
      have hca : c ≠ a := by intro hc; rw [hc] at hpc; exact hpc hpa
      have hcb : c ≠ b := by intro hc; rw [hc] at hpc; exact hpc hpb
      have e2 : firstIdx a (c :: t) = firstIdx a t + 1 := firstIdx_cons_ne a c t hca
      have e4 : firstIdx b (c :: t) = firstIdx b t + 1 := firstIdx_cons_ne b c t hcb
      have := ih a b ha hb hlt
      omega

theorem pairwise_firstIdx_firstDedup :
    ∀ l : List String, (firstDedup l).Pairwise (fun a b => firstIdx a l < firstIdx b l) := by
  intro l
  induction l using firstDedup.induct with
  | case1 => simp [firstDedup]
  | case2 y ys ih =>
    rw [firstDedup]
    refine List.Pairwise.cons ?_ ?_
    · intro b hb
      have hbf : b ∈ ys.filter (fun z => z ≠ y) := (mem_firstDedup b _).mp hb
      have hby : y ≠ b := by
        have : b ≠ y := by simpa using (List.mem_filter.mp hbf).2
        exact this.symm
      rw [firstIdx_cons_self, firstIdx_cons_ne b y ys hby]
      omega
    · refine List.Pairwise.imp_of_mem ?_ ih
      intro a b ha hb hlt
      have haf : a ∈ ys.filter (fun z => z ≠ y) := (mem_firstDedup a _).mp ha
      have hbf : b ∈ ys.filter (fun z => z ≠ y) := (mem_firstDedup b _).mp hb
      have hay : y ≠ a := by
        have : a ≠ y := by simpa using (List.mem_filter.mp haf).2
        exact this.symm
      have hby : y ≠ b := by
        have : b ≠ y := by simpa using (List.mem_filter.mp hbf).2
        exact this.symm
      rw [firstIdx_cons_ne a y ys hay, firstIdx_cons_ne b y ys hby]
      have := firstIdx_filter_lt _ ys a b haf hbf hlt
      omega

theorem mem_expandOne (g : String → List String) (ex : String → Bool) (item x : String) :
    x ∈ expandOne g ex item ↔
      (g item ≠ [] ∧ x ∈ g item) ∨ (g item = [] ∧ ex item = true ∧ x = item) := by
  unfold expandOne
  by_cases hg : g item = []
  · by_cases he : ex item = true
    · simp [hg, he]
    · simp [hg, he]
  · simp [hg]

theorem mem_expandRaw (g : String → List String) (ex : String → Bool) (x : String) :
    ∀ inputs : List String,
      x ∈ expandRaw g ex inputs ↔ ∃ item, item ∈ inputs ∧ x ∈ expandOne g ex item := by
  intro inputs
  induction inputs with
  | nil => simp [expandRaw]
  | cons i rest ih =>
    simp only [expandRaw, List.mem_append, ih, List.mem_cons]
    constructor
    · rintro (h | ⟨item, hi, hx⟩)
      · exact ⟨i, Or.inl rfl, h⟩
      · exact ⟨item, Or.inr hi, hx⟩
    · rintro ⟨item, hi | hi, hx⟩
      · exact Or.inl (hi ▸ hx)
      · exact Or.inr ⟨item, hi, hx⟩

/-- C1 counterexample: the claim computes the encoder quality with true
rounding, but the source truncates.  At quality 92 the command built by
image compress carries the quality argument 2, while
clamp(2, 31, round((100 - 92) / 3)) = clamp(2, 31, round(8/3)) = 3. -/
theorem compress_quality_round_cex :
    compressCmd "ffmpeg" ⟨".", "photo", ".jpg"⟩ ⟨".", "photo", ".jpg"⟩ 92 =
      ["ffmpeg", "-i", "./photo.jpg", "-q:v", "2", "./photo.jpg"] ∧
    specRoundQ 92 = 3 ∧ qValue 92 = 2 ∧ (qValue 92 : Int) ≠ specRoundQ 92 := by
  have hq : qValue 92 = 2 := by decide
  have hs : specRoundQ 92 = 3 := by
    unfold specRoundQ
    have hc : ((92 : Nat) : ℚ) = 92 := by norm_num
    rw [hc]
    have h8 : (100 - (92 : ℚ)) / 3 = 8 / 3 := by norm_num
    rw [h8, round_eq]
    norm_num
  refine ⟨by decide, hs, hq, ?_⟩
  rw [hq, hs]
  decide

/-- C1 (amended): for quality in [0, 100] on a non-PNG source, the
encoder quality argument placed in the command is
clamp(2, 31, floor((100 - quality) / 3)) — Python int() truncation, not
rounding; quality 70 still yields 10. -/
theorem compress_quality_arg_eq_floor_clamp (ffmpeg : String) (src dst : FsPath)
    (quality : Nat) (hq : quality ≤ 100) (hpng : strLower src.ext ≠ ".png") :
    compressCmd ffmpeg src dst quality =
      [ffmpeg, "-i", pathStr src, "-q:v", natStr (qValue quality), pathStr dst] ∧
    (qValue quality : Int) = specFloorQ quality ∧ qValue 70 = 10 := by
  refine ⟨by simp [compressCmd, hpng], ?_, by decide⟩
  unfold qValue specFloorQ
  omega

theorem compress_quality_arg_eq_floor_clamp_witness :
    (70 ≤ 100 ∧ strLower (FsPath.ext ⟨".", "photo", ".jpg"⟩) ≠ ".png") ∧
    (compressCmd "ffmpeg" ⟨".", "photo", ".jpg"⟩ ⟨".", "photo_c", ".jpg"⟩ 70 =
      ["ffmpeg", "-i", pathStr ⟨".", "photo", ".jpg"⟩, "-q:v", natStr (qValue 70),
        pathStr ⟨".", "photo_c", ".jpg"⟩] ∧
    (qValue 70 : Int) = specFloorQ 70 ∧ qValue 70 = 10) :=
  ⟨⟨by decide, by decide⟩,
    compress_quality_arg_eq_floor_clamp "ffmpeg" ⟨".", "photo", ".jpg"⟩
      ⟨".", "photo_c", ".jpg"⟩ 70 (by decide) (by decide)⟩

/-- C8: for quality in [0, 100] the derived encoder quality lies in
[2, 31] and is monotonically (weakly) decreasing in the requested
quality. -/
theorem quality_mapping_bounds_antitone :
    (∀ q, q ≤ 100 → 2 ≤ qValue q ∧ qValue q ≤ 31) ∧
    (∀ q1 q2, q1 ≤ 100 → q2 ≤ 100 → q1 ≤ q2 → qValue q2 ≤ qValue q1) := by
  constructor
  · intro q hq
    unfold qValue
    omega
  · intro q1 q2 h1 h2 h
    unfold qValue
    omega

theorem quality_mapping_bounds_antitone_witness :
    (2 ≤ qValue 70 ∧ qValue 70 ≤ 31) ∧ qValue 80 ≤ qValue 50 :=
  ⟨quality_mapping_bounds_antitone.1 70 (by decide),
    quality_mapping_bounds_antitone.2 50 80 (by decide) (by decide) (by decide)⟩

/-- C9: run_ffmpeg always resolves to a boolean (it is a total function
into Bool); in dry-run it returns success without consulting the
subprocess oracle at all, and otherwise it returns success exactly when
the process completed with exit code zero — a non-zero exit or a raised
exception both yield failure. -/
theorem run_ffmpeg_outcome :
    (∀ (env : Env) (cmd : List String), env.dryRun = true → run_ffmpeg env cmd = true) ∧
    (∀ (f1 f2 : List String → RunRes) (fp : String) (b : FsPath → Bool)
      (cmd : List String),
      run_ffmpeg ⟨fp, true, f1, b⟩ cmd = run_ffmpeg ⟨fp, true, f2, b⟩ cmd) ∧
    (∀ (env : Env) (cmd : List String), env.dryRun = false →
      (run_ffmpeg env cmd = true ↔ ∃ e, env.run cmd = RunRes.completed 0 e)) := by
  refine ⟨?_, ?_, ?_⟩
  · intro env cmd h
    simp [run_ffmpeg, h]
  · intro f1 f2 fp b cmd
    rfl
  · intro env cmd h
    simp only [run_ffmpeg, h, Bool.false_eq_true, if_false]
    cases hr : env.run cmd with
    | completed rc e =>
      by_cases hrc : rc = 0
      · subst hrc
        simp
      · simp [hrc]
    | raised m =>
      simp

theorem run_ffmpeg_outcome_witness :
    run_ffmpeg envDryRaise ["ffmpeg", "-i", "x"] = true :=
  run_ffmpeg_outcome.1 envDryRaise ["ffmpeg", "-i", "x"] rfl

/-- C4 counterexample: for a path that does not exist, suggest_path does
not return it unchanged — it still returns the stem_1 candidate. -/
theorem suggest_path_nonexistent_input_cex :
    (⟨"d", "a", ".txt"⟩ : FsPath) ∉ (∅ : Finset FsPath) ∧
    suggest_path ∅ ⟨"d", "a", ".txt"⟩ ≠ ⟨"d", "a", ".txt"⟩ ∧
    suggest_path ∅ ⟨"d", "a", ".txt"⟩ = ⟨"d", "a_1", ".txt"⟩ := by
  exact ⟨by decide, by decide, by decide⟩

/-- C4 (amended): suggest_path never returns its input unchanged,
whether or not the input exists: it returns the first candidate stem_1,
stem_2, … (suffix preserved) that does not exist.  In particular, for an
existing input the returned path is never the input and never exists. -/
theorem suggest_path_first_free_candidate (fs : Finset FsPath) (p : FsPath) :
    ∃ m, 1 ≤ m ∧ suggest_path fs p = candidate p m ∧ candidate p m ∉ fs ∧
      (∀ j, 1 ≤ j → j < m → candidate p j ∈ fs) ∧ suggest_path fs p ≠ p := by
  unfold suggest_path
  obtain ⟨j, hj, hfree⟩ := exists_free_candidate fs p
  obtain ⟨k, heq, hfree2, hmin⟩ :=
    suggestAux_spec fs p (fs.card + 1) 1 ⟨j, hj, hfree⟩
  refine ⟨1 + k, by omega, heq, hfree2, ?_, ?_⟩
  · intro i h1 hik
    have hi : i = 1 + (i - 1) := by omega
    rw [hi]
    exact hmin (i - 1) (by omega)
  · rw [heq]
    exact candidate_ne_self p (1 + k)

theorem suggest_path_first_free_candidate_witness :
    suggest_path {(⟨"d", "a", ".txt"⟩ : FsPath)} ⟨"d", "a", ".txt"⟩ ≠ ⟨"d", "a", ".txt"⟩ := by
  obtain ⟨m, _, _, _, _, hne⟩ :=
    suggest_path_first_free_candidate {(⟨"d", "a", ".txt"⟩ : FsPath)} ⟨"d", "a", ".txt"⟩
  exact hne

/-- C2: evaluation at the failing input.  In dry-run mode run_ffmpeg
reports success without executing, so video convert still calls
backup_original: the batch result shows the source clip.mkv relocated to
./backup while the destination clip.mp4 was never created — the original
was relocated before (indeed, without) any new artifact existing, during
a mode documented as a pure preview. -/
theorem dry_run_relocates_source_without_artifact :
    videoConvert envDryRun {(⟨".", "clip", ".mkv"⟩ : FsPath)} [⟨".", "clip", ".mkv"⟩]
      "mp4" false false =
      Except.ok ⟨{⟨"./backup", "clip", ".mkv"⟩}, [⟨".", "clip", ".mp4"⟩], 1, 0,
        some (1, 0)⟩ ∧
    (⟨".", "clip", ".mkv"⟩ : FsPath) ∉ ({⟨"./backup", "clip", ".mkv"⟩} : Finset FsPath) ∧
    (⟨".", "clip", ".mp4"⟩ : FsPath) ∉ ({⟨"./backup", "clip", ".mkv"⟩} : Finset FsPath) := by
  exact ⟨rfl, by decide, by decide⟩

theorem runBatch_mute_skip (env : Env) :
    ∀ (files : List FsPath) (fs : Finset FsPath), (∀ f ∈ files, f ∈ fs) →
      runBatch (muteStep env false) fs files = Except.ok ⟨fs, [], 0, files.length⟩ := by
  intro files
  induction files with
  | nil => intro fs _; rfl
  | cons src rest ih =>
    intro fs h
    have hsrc : src ∈ fs := h src (by simp)
    have hstep : muteStep env false fs src = Except.ok ⟨fs, [], 0, 1, none⟩ := by
      unfold muteStep
      simp [hsrc]
    have hrest := ih fs (fun f hf => h f (by simp [hf]))
    simp [runBatch, hstep, hrest]
    omega

/-- C10: video mute without force skips every resolved input (the
destination is the source itself, which exists), counts each as a
failure, and reports Success: 0, Failed: N. -/
theorem mute_without_force_all_fail (env : Env) (fs : Finset FsPath)
    (files : List FsPath) (hne : files ≠ []) (h : ∀ f ∈ files, f ∈ fs) :
    mute env fs files false =
      Except.ok ⟨fs, [], 0, files.length, some (0, files.length)⟩ := by
  unfold mute
  simp [hne, runBatch_mute_skip env files fs h]

theorem mute_without_force_all_fail_witness :
    ([⟨".", "a", ".mp4"⟩, ⟨".", "b", ".mp4"⟩] : List FsPath) ≠ [] ∧
    mute envMuteOk {⟨".", "a", ".mp4"⟩, ⟨".", "b", ".mp4"⟩}
      [⟨".", "a", ".mp4"⟩, ⟨".", "b", ".mp4"⟩] false =
      Except.ok ⟨{⟨".", "a", ".mp4"⟩, ⟨".", "b", ".mp4"⟩}, [], 0, 2, some (0, 2)⟩ :=
  ⟨by decide,
    mute_without_force_all_fail envMuteOk {⟨".", "a", ".mp4"⟩, ⟨".", "b", ".mp4"⟩}
      [⟨".", "a", ".mp4"⟩, ⟨".", "b", ".mp4"⟩] (by decide) (by decide)⟩

/-- C5: on a destination collision without force, video convert and
video mute skip the file and count a failure (no command is run); image
convert, image compress, audio extract and audio convert instead
auto-suffix the destination through suggest_path and proceed — the
command handed to run_ffmpeg uses the suggested destination. -/
theorem collision_policy_by_operation :
    (∀ (env : Env) (format : String) (fast : Bool) (fs : Finset FsPath) (src : FsPath),
      withExt src format ∈ fs →
      videoConvertStep env format fast false fs src = Except.ok ⟨fs, [], 0, 1, none⟩) ∧
    (∀ (env : Env) (fs : Finset FsPath) (src : FsPath), src ∈ fs →
      muteStep env false fs src = Except.ok ⟨fs, [], 0, 1, none⟩) ∧
    (∀ (env : Env) (format : String) (fs : Finset FsPath) (src : FsPath),
      withExt src format ∈ fs → env.backupOk src = true →
      ∃ o, imageConvertStep env format false fs src = Except.ok o ∧
        o.ran = some (imageConvertCmd env.ffmpeg src (suggest_path fs (withExt src format)))) ∧
    (∀ (env : Env) (q : Nat) (fs : Finset FsPath) (src : FsPath), src ∈ fs →
      (compressStep env q false fs src).ran =
        some (compressCmd env.ffmpeg src (suggest_path fs src) q)) ∧
    (∀ (env : Env) (fs : Finset FsPath) (input : FsPath), input ∈ fs →
      withExt input "mp3" ∈ fs → env.backupOk input = true →
      ∃ o, audioExtract env fs input false = Except.ok o ∧
        o.ran = audioExtractCmd env.ffmpeg input (suggest_path fs (withExt input "mp3"))) ∧
    (∀ (env : Env) (fs : Finset FsPath) (input : FsPath) (format : String),
      strLower format ∈ AUDIO_FORMATS → input ∈ fs → withExt input format ∈ fs →
      env.backupOk input = true →
      ∃ o, audioConvert env fs input format false = Except.ok o ∧
        o.ran = audioConvertCmd env.ffmpeg input (suggest_path fs (withExt input format))) := by
  refine ⟨?_, ?_, ?_, ?_, ?_, ?_⟩
  · intro env format fast fs src h
    unfold videoConvertStep
    simp [h]
  · intro env fs src h
    unfold muteStep
    simp [h]
  · intro env format fs src hdst hbk
    unfold imageConvertStep
    simp only [hdst, and_self, if_true, and_true]
    by_cases hr :
      run_ffmpeg env (imageConvertCmd env.ffmpeg src (suggest_path fs (withExt src format))) = true
    · simp only [hr, if_true, backup_original, hbk]
      exact ⟨_, rfl, rfl⟩
    · simp only [Bool.not_eq_true] at hr
      simp only [hr, Bool.false_eq_true, if_false]
      exact ⟨_, rfl, rfl⟩
  · intro env q fs src h
    unfold compressStep
    simp only [h, and_self, if_true]
    by_cases hr : run_ffmpeg env (compressCmd env.ffmpeg src (suggest_path fs src) q) = true
    · simp only [hr, if_true]
      unfold backup_original
      by_cases hbk : env.backupOk src = true
      · simp [hbk]
      · simp only [Bool.not_eq_true] at hbk
        simp [hbk]
    · simp only [Bool.not_eq_true] at hr
      simp [hr]
  · intro env fs input hin hdst hbk
    unfold audioExtract
    simp only [hin, not_true, if_false, hdst, and_self, if_true]
    by_cases hr :
      run_ffmpeg env (audioExtractCmd env.ffmpeg input (suggest_path fs (withExt input "mp3"))) = true
    · simp only [hr, if_true, backup_original, hbk]
      exact ⟨_, rfl, rfl⟩
    · simp only [Bool.not_eq_true] at hr
      simp only [hr, Bool.false_eq_true, if_false]
      exact ⟨_, rfl, rfl⟩
  · intro env fs input format hfmt hin hdst hbk
    unfold audioConvert
    simp only [hfmt, not_true, if_false, hin, hdst, and_self, if_true]
    by_cases hr :
      run_ffmpeg env (audioConvertCmd env.ffmpeg input (suggest_path fs (withExt input format))) = true
    · simp only [hr, if_true, backup_original, hbk]
      exact ⟨_, rfl, rfl⟩
    · simp only [Bool.not_eq_true] at hr
      simp only [hr, Bool.false_eq_true, if_false]
      exact ⟨_, rfl, rfl⟩

set_option maxHeartbeats 2000000 in
theorem collision_policy_by_operation_witness :
    ((⟨".", "v", ".mkv"⟩ : FsPath) ∈ ({⟨".", "v", ".mkv"⟩} : Finset FsPath) ∧
      videoConvertStep envAllOk "mkv" false false {⟨".", "v", ".mkv"⟩} ⟨".", "v", ".mkv"⟩ =
        Except.ok ⟨{⟨".", "v", ".mkv"⟩}, [], 0, 1, none⟩) ∧
    (compressStep envAllOk 60 false {⟨".", "s", ".jpg"⟩} ⟨".", "s", ".jpg"⟩).ran =
      some (compressCmd envAllOk.ffmpeg ⟨".", "s", ".jpg"⟩
        (suggest_path {⟨".", "s", ".jpg"⟩} ⟨".", "s", ".jpg"⟩) 60) :=
  ⟨⟨by decide,
      collision_policy_by_operation.1 envAllOk "mkv" false {⟨".", "v", ".mkv"⟩}
        ⟨".", "v", ".mkv"⟩ (by decide)⟩,
    collision_policy_by_operation.2.2.2.1 envAllOk 60 {⟨".", "s", ".jpg"⟩}
      ⟨".", "s", ".jpg"⟩ (by decide)⟩

theorem compressStep_okfail (env : Env) (q : Nat) (force : Bool)
    (fs : Finset FsPath) (src : FsPath) :
    (compressStep env q force fs src).okInc + (compressStep env q force fs src).failInc = 1 := by
  unfold compressStep
  by_cases hr : run_ffmpeg env (compressCmd env.ffmpeg src
      (if src ∈ fs ∧ force = false then suggest_path fs src else src) q) = true
  · simp only [hr, if_true]
    unfold backup_original
    by_cases hbk : env.backupOk src = true
    · simp [hbk]
    · simp only [Bool.not_eq_true] at hbk
      simp [hbk]
  · simp only [Bool.not_eq_true] at hr
    simp [hr]

theorem runBatchT_compress_len (env : Env) (q : Nat) (force : Bool) :
    ∀ (files : List FsPath) (fs : Finset FsPath),
      (runBatchT (compressStep env q force) fs files).ok +
        (runBatchT (compressStep env q force) fs files).fail = files.length := by
  intro files
  induction files with
  | nil => intro fs; rfl
  | cons src rest ih =>
    intro fs
    have h1 := compressStep_okfail env q force fs src
    have h2 := ih (compressStep env q force fs src).fs
    simp only [runBatchT, List.length_cons]
    omega

/-- C3 counterexample: in video convert, a backup failure on the first
file is not caught at file granularity — the whole batch crashes with
an uncaught exception instead of counting one failure and continuing
with the second file. -/
theorem video_convert_backup_exception_crashes_batch :
    videoConvert envBackupFail {⟨".", "a", ".mkv"⟩, ⟨".", "b", ".mkv"⟩}
      [⟨".", "a", ".mkv"⟩, ⟨".", "b", ".mkv"⟩] "mp4" false false =
      Except.error CmdErr.uncaught := by
  rfl

/-- C3 (amended): only image compress wraps its per-file body in
try/except: there, any exception — including a backup failure — is
counted as a failure and the batch continues, every file contributing
exactly one tally, so the command always completes with ok + fail = N.
In video convert, video mute and image convert an exception raised by
the backup relocation propagates out of the loop and aborts the whole
batch. -/
theorem per_file_catch_only_in_compress :
    (∀ (env : Env) (fs : Finset FsPath) (files : List FsPath) (q : Nat) (force : Bool),
      files ≠ [] → ∃ o, imageCompress env fs files q force = Except.ok o ∧
        o.ok + o.fail = files.length) ∧
    (∀ (env : Env) (fs : Finset FsPath) (src : FsPath) (rest : List FsPath)
      (format : String) (fast : Bool), strLower format ∈ VIDEO_FORMATS →
      withExt src format ∉ fs →
      run_ffmpeg env (videoConvertCmd env.ffmpeg fast src (withExt src format)) = true →
      env.backupOk src = false →
      videoConvert env fs (src :: rest) format fast false = Except.error CmdErr.uncaught) ∧
    (∀ (env : Env) (fs : Finset FsPath) (src : FsPath) (rest : List FsPath),
      run_ffmpeg env (muteCmd env.ffmpeg src src) = true → env.backupOk src = false →
      mute env fs (src :: rest) true = Except.error CmdErr.uncaught) ∧
    (∀ (env : Env) (fs : Finset FsPath) (src : FsPath) (rest : List FsPath)
      (format : String), strLower format ∈ IMAGE_FORMATS →
      run_ffmpeg env (imageConvertCmd env.ffmpeg src (withExt src format)) = true →
      env.backupOk src = false →
      imageConvert env fs (src :: rest) format true = Except.error CmdErr.uncaught) := by
  refine ⟨?_, ?_, ?_, ?_⟩
  · intro env fs files q force hne
    unfold imageCompress
    simp only [hne, if_false]
    exact ⟨_, rfl, runBatchT_compress_len env q force files fs⟩
  · intro env fs src rest format fast hfmt hdst hrun hbk
    unfold videoConvert
    simp only [hfmt, not_true_eq_false, if_false, reduceCtorEq, if_neg, not_false_iff]
    have hstep : videoConvertStep env format fast false fs src = Except.error () := by
      unfold videoConvertStep
      simp only [hdst, false_and, if_false, hrun, if_true]
      unfold backup_original
      simp [hbk]
    simp [runBatch, hstep]
  · intro env fs src rest hrun hbk
    unfold mute
    have hstep : muteStep env true fs src = Except.error () := by
      unfold muteStep
      simp only [and_false, if_false, hrun, if_true]
      unfold backup_original
      simp [hbk]
    simp [runBatch, hstep]
  · intro env fs src rest format hfmt hrun hbk
    unfold imageConvert
    simp only [hfmt, not_true_eq_false, if_false]
    have hstep : imageConvertStep env format true fs src = Except.error () := by
      unfold imageConvertStep
      simp only [Bool.true_eq_false, and_false, if_false]
      rw [if_pos hrun]
      unfold backup_original
      simp [hbk]
    simp [runBatch, hstep]

set_option maxHeartbeats 2000000 in
theorem per_file_catch_only_in_compress_witness :
    (∃ o, imageCompress envBackupFail {⟨".", "a", ".jpg"⟩} [⟨".", "a", ".jpg"⟩] 60 false =
      Except.ok o ∧ o.ok + o.fail = 1) ∧
    videoConvert envBackupFail {⟨".", "a", ".mkv"⟩} [⟨".", "a", ".mkv"⟩] "mp4" false false =
      Except.error CmdErr.uncaught :=
  ⟨per_file_catch_only_in_compress.1 envBackupFail {⟨".", "a", ".jpg"⟩}
      [⟨".", "a", ".jpg"⟩] 60 false (by decide),
    per_file_catch_only_in_compress.2.1 envBackupFail {⟨".", "a", ".mkv"⟩}
      ⟨".", "a", ".mkv"⟩ [] "mp4" false (by decide) (by decide) (by decide) (by decide)⟩

/-- C7 counterexample: in audio extract a non-zero exit of the external
binary leaves no trace in the command result — no file is created, no
backup happens, and no message or summary with success/failure counts is
printed (msg is none; the command has no tally at all), contradicting
the claim that every command tallies the failure and reports counts. -/
theorem audio_extract_failure_untallied_cex :
    audioExtract envRunFails {⟨".", "movie", ".mp4"⟩} ⟨".", "movie", ".mp4"⟩ false =
      Except.ok ⟨{⟨".", "movie", ".mp4"⟩}, [],
        audioExtractCmd "ffmpeg" ⟨".", "movie", ".mp4"⟩ ⟨".", "movie", ".mp3"⟩, none⟩ := by
  rfl

/-- C7 (amended): the four batch commands count a non-zero exit as a
failure (their per-file step yields okInc 0 and failInc 1) and their
final summary line always reports exactly the success/failure tallies;
the single-file audio extract and audio convert commands do neither: on
a failed run they create nothing, back up nothing and print nothing. -/
theorem failure_tally_and_summary_by_command :
    (∀ (env : Env) (format : String) (fast force : Bool) (fs : Finset FsPath)
      (src : FsPath), ¬(withExt src format ∈ fs ∧ force = false) →
      run_ffmpeg env (videoConvertCmd env.ffmpeg fast src (withExt src format)) = false →
      videoConvertStep env format fast force fs src = Except.ok
        ⟨fs, [], 0, 1, some (videoConvertCmd env.ffmpeg fast src (withExt src format))⟩) ∧
    (∀ (env : Env) (force : Bool) (fs : Finset FsPath) (src : FsPath),
      ¬(src ∈ fs ∧ force = false) →
      run_ffmpeg env (muteCmd env.ffmpeg src src) = false →
      muteStep env force fs src = Except.ok
        ⟨fs, [], 0, 1, some (muteCmd env.ffmpeg src src)⟩) ∧
    (∀ (env : Env) (format : String) (force : Bool) (fs : Finset FsPath)
      (src : FsPath) (dst : FsPath),
      dst = (if withExt src format ∈ fs ∧ force = false then
        suggest_path fs (withExt src format) else withExt src format) →
      run_ffmpeg env (imageConvertCmd env.ffmpeg src dst) = false →
      imageConvertStep env format force fs src = Except.ok
        ⟨fs, [], 0, 1, some (imageConvertCmd env.ffmpeg src dst)⟩) ∧
    (∀ (env : Env) (q : Nat) (force : Bool) (fs : Finset FsPath) (src : FsPath)
      (dst : FsPath),
      dst = (if src ∈ fs ∧ force = false then suggest_path fs src else src) →
      run_ffmpeg env (compressCmd env.ffmpeg src dst q) = false →
      compressStep env q force fs src = ⟨fs, [], 0, 1, some (compressCmd env.ffmpeg src dst q)⟩) ∧
    (∀ (env : Env) (fs : Finset FsPath) (files : List FsPath) (format : String)
      (fast force : Bool) (o : CmdOut),
      videoConvert env fs files format fast force = Except.ok o →
      o.summary = some (o.ok, o.fail)) ∧
    (∀ (env : Env) (fs : Finset FsPath) (files : List FsPath) (force : Bool) (o : CmdOut),
      mute env fs files force = Except.ok o → o.summary = some (o.ok, o.fail)) ∧
    (∀ (env : Env) (fs : Finset FsPath) (files : List FsPath) (format : String)
      (force : Bool) (o : CmdOut),
      imageConvert env fs files format force = Except.ok o →
      o.summary = some (o.ok, o.fail)) ∧
    (∀ (env : Env) (fs : Finset FsPath) (files : List FsPath) (q : Nat)
      (force : Bool) (o : CmdOut),
      imageCompress env fs files q force = Except.ok o →
      o.summary = some (o.ok, o.fail)) ∧
    (∀ (env : Env) (fs : Finset FsPath) (input : FsPath) (force : Bool),
      input ∈ fs → withExt input "mp3" ∉ fs →
      run_ffmpeg env (audioExtractCmd env.ffmpeg input (withExt input "mp3")) = false →
      audioExtract env fs input force = Except.ok
        ⟨fs, [], audioExtractCmd env.ffmpeg input (withExt input "mp3"), none⟩) ∧
    (∀ (env : Env) (fs : Finset FsPath) (input : FsPath) (format : String)
      (force : Bool), strLower format ∈ AUDIO_FORMATS → input ∈ fs →
      withExt input format ∉ fs →
      run_ffmpeg env (audioConvertCmd env.ffmpeg input (withExt input format)) = false →
      audioConvert env fs input format force = Except.ok
        ⟨fs, [], audioConvertCmd env.ffmpeg input (withExt input format), none⟩) := by
  refine ⟨?_, ?_, ?_, ?_, ?_, ?_, ?_, ?_, ?_, ?_⟩
  · intro env format fast force fs src hskip hrun
    unfold videoConvertStep
    rw [if_neg hskip]
    simp [hrun]
  · intro env force fs src hskip hrun
    unfold muteStep
    rw [if_neg hskip]
    simp [hrun]
  · intro env format force fs src dst hdst hrun
    unfold imageConvertStep
    subst hdst
    simp [hrun]
  · intro env q force fs src dst hdst hrun
    unfold compressStep
    subst hdst
    simp [hrun]
  · intro env fs files format fast force o h
    unfold videoConvert at h
    by_cases h1 : strLower format ∉ VIDEO_FORMATS
    · simp [h1] at h
    · by_cases h2 : files = []
      · simp [h1, h2] at h
      · simp only [h1, if_false, h2, not_false_iff] at h
        cases hb : runBatch (videoConvertStep env format fast force) fs files with
        | error e => rw [hb] at h; exact absurd h (by simp)
        | ok acc =>
          rw [hb] at h
          simp only [Except.ok.injEq] at h
          rw [← h]
  · intro env fs files force o h
    unfold mute at h
    by_cases h2 : files = []
    · simp [h2] at h
    · simp only [h2, if_false] at h
      cases hb : runBatch (muteStep env force) fs files with
      | error e => rw [hb] at h; exact absurd h (by simp)
      | ok acc =>
        rw [hb] at h
        simp only [Except.ok.injEq] at h
        rw [← h]
  · intro env fs files format force o h
    unfold imageConvert at h
    by_cases h1 : strLower format ∉ IMAGE_FORMATS
    · simp [h1] at h
    · by_cases h2 : files = []
      · simp [h1, h2] at h
      · simp only [h1, if_false, h2, not_false_iff] at h
        cases hb : runBatch (imageConvertStep env format force) fs files with
        | error e => rw [hb] at h; exact absurd h (by simp)
        | ok acc =>
          rw [hb] at h
          simp only [Except.ok.injEq] at h
          rw [← h]
  · intro env fs files q force o h
    unfold imageCompress at h
    by_cases h2 : files = []
    · simp [h2] at h
    · simp only [h2, if_false] at h
      simp only [Except.ok.injEq] at h
      rw [← h]
  · intro env fs input force hin hdst hrun
    unfold audioExtract
    rw [if_neg (by simpa using hin)]
    simp only [hdst, false_and, if_false]
    simp [hrun]
  · intro env fs input format force hfmt hin hdst hrun
    unfold audioConvert
    rw [if_neg (by simpa using hfmt)]
    rw [if_neg (by simpa using hin)]
    simp only [hdst, false_and, if_false]
    simp [hrun]

theorem failure_tally_and_summary_by_command_witness :
    videoConvertStep envRunFails "mp4" false true ∅ ⟨".", "x", ".mkv"⟩ =
      Except.ok ⟨∅, [], 0, 1,
        some (videoConvertCmd envRunFails.ffmpeg false ⟨".", "x", ".mkv"⟩
          (withExt ⟨".", "x", ".mkv"⟩ "mp4"))⟩ ∧
    audioExtract envRunFails {⟨".", "m", ".mp4"⟩} ⟨".", "m", ".mp4"⟩ false =
      Except.ok ⟨{⟨".", "m", ".mp4"⟩}, [],
        audioExtractCmd envRunFails.ffmpeg ⟨".", "m", ".mp4"⟩
          (withExt ⟨".", "m", ".mp4"⟩ "mp3"), none⟩ :=
  ⟨failure_tally_and_summary_by_command.1 envRunFails "mp4" false true ∅
      ⟨".", "x", ".mkv"⟩ (by decide) (by decide),
    failure_tally_and_summary_by_command.2.2.2.2.2.2.2.2.1 envRunFails
      {⟨".", "m", ".mp4"⟩} ⟨".", "m", ".mp4"⟩ false (by decide) (by decide) (by decide)⟩

/-- C6: expand_inputs includes, for each pattern, its wildcard matches
when any exist, else the pattern itself when it exists, else nothing;
the result (under a glob oracle returning existing entries) contains
only existing files, each at most once, ordered by first match; and the
four batch commands treat an empty resolved list as a fatal no-input
error. -/
theorem expand_inputs_spec (g : String → List String) (ex : String → Bool)
    (inputs : List String) (hg : ∀ s x, x ∈ g s → ex x = true) :
    (∀ x, x ∈ expand_inputs g ex inputs ↔ ∃ item, item ∈ inputs ∧
      ((g item ≠ [] ∧ x ∈ g item) ∨ (g item = [] ∧ ex item = true ∧ x = item))) ∧
    (expand_inputs g ex inputs).Nodup ∧
    (∀ x ∈ expand_inputs g ex inputs, ex x = true) ∧
    (expand_inputs g ex inputs).Pairwise
      (fun a b => firstIdx a (expandRaw g ex inputs) < firstIdx b (expandRaw g ex inputs)) ∧
    (∀ (env : Env) (fs : Finset FsPath) (format : String) (fast force : Bool),
      ∃ m, videoConvert env fs [] format fast force = Except.error (CmdErr.clickError m)) ∧
    (∀ (env : Env) (fs : Finset FsPath) (force : Bool),
      mute env fs [] force = Except.error (CmdErr.clickError "No input files resolved")) ∧
    (∀ (env : Env) (fs : Finset FsPath) (format : String) (force : Bool),
      ∃ m, imageConvert env fs [] format force = Except.error (CmdErr.clickError m)) ∧
    (∀ (env : Env) (fs : Finset FsPath) (q : Nat) (force : Bool),
      imageCompress env fs [] q force =
        Except.error (CmdErr.clickError "No input files resolved.")) := by
  have hmem : ∀ x, x ∈ expand_inputs g ex inputs ↔ ∃ item, item ∈ inputs ∧
      ((g item ≠ [] ∧ x ∈ g item) ∨ (g item = [] ∧ ex item = true ∧ x = item)) := by
    intro x
    unfold expand_inputs
    rw [mem_firstDedup, mem_expandRaw]
    simp only [mem_expandOne]
  refine ⟨hmem, nodup_firstDedup _, ?_, pairwise_firstIdx_firstDedup _, ?_, ?_, ?_, ?_⟩
  · intro x hx
    obtain ⟨item, _, hcase⟩ := (hmem x).mp hx
    rcases hcase with ⟨_, hxg⟩ | ⟨_, hex, hxi⟩
    · exact hg item x hxg
    · rw [hxi]
      exact hex
  · intro env fs format fast force
    unfold videoConvert
    by_cases hf : strLower format ∉ VIDEO_FORMATS
    · exact ⟨"Unsupported video format", by rw [if_pos hf]⟩
    · refine ⟨"No input files resolved", ?_⟩
      rw [if_neg hf]
      rfl
  · intro env fs force
    rfl
  · intro env fs format force
    unfold imageConvert
    by_cases hf : strLower format ∉ IMAGE_FORMATS
    · exact ⟨"Unsupported image format", by rw [if_pos hf]⟩
    · refine ⟨"No input files resolved", ?_⟩
      rw [if_neg hf]
      rfl
  · intro env fs q force
    rfl

theorem expand_inputs_spec_witness :
    (∀ s x, x ∈ globConst s → existsAll x = true) ∧
    (expand_inputs globConst existsAll ["*.png", "b.jpg"]).Nodup :=
  ⟨fun _ _ _ => rfl,
    (expand_inputs_spec globConst existsAll ["*.png", "b.jpg"] (fun _ _ _ => rfl)).2.1⟩

end Avicore
